import Mathlib

/-!
Shallow embedding of the scheduling tools of src/app.py (a Google-Calendar
assistant).  Instants (ISO-8601 UTC strings such as 2030-01-01T10:00:00Z in
the Python code) are modelled by the integer number of seconds since the
epoch that they denote, so datetime.fromisoformat followed by astimezone(UTC)
becomes the identity on the model and timedelta(minutes=d) becomes 60 * d
seconds; sub-second precision is dropped.  The calendar backend (the
events().list and events().insert calls) is an external collaborator: each
tool takes the backend response as an argument and, where relevant, returns
the request it issued, so that theorems can speak about what was sent to the
backend.  The transport-failure branches (the except blocks around the
fetch/insert) are outside the scope of the claims and are not modelled; the
backend is assumed to respond.
-/

namespace Calendar

/-- Model of the start/end field of a raw backend event: a dict that may
carry a dateTime key (timed events) and/or a date key (all-day events). -/
structure RawTime where
  dateTime : Option Int
  date : Option Int
deriving DecidableEq

/-- Model of a raw event as returned by the backend: the start, end and
summary entries of the event dict. -/
structure RawEvent where
  start : RawTime
  end_ : RawTime
  summary : String
deriving DecidableEq

instance instDecEqExcept {ε α : Type} [DecidableEq ε] [DecidableEq α] :
    DecidableEq (Except ε α) := fun x y =>
  match x, y with
  | .error a, .error b =>
    if h : a = b then isTrue (by rw [h]) else isFalse (fun hh => h (by injection hh))
  | .error _, .ok _ => isFalse (fun hh => Except.noConfusion hh)
  | .ok _, .error _ => isFalse (fun hh => Except.noConfusion hh)
  | .ok a, .ok b =>
    if h : a = b then isTrue (by rw [h]) else isFalse (fun hh => h (by injection hh))

/-! ## list_events_tool (src/app.py lines 92-148) -/

/-- Model of the dict lookup performed on the start and end dicts of a raw
event (line 131 and lines 137-139): the dateTime value when present, else
the date value (a get with the date value as default). -/
def rawTimeValue (t : RawTime) : Option Int :=
  match t.dateTime with
  | some v => some v
  | none => t.date

/-- One formatted entry of the list returned by list_events_tool. -/
structure EventOut where
  start : Option Int
  summary : String
  end_ : Option Int
deriving DecidableEq

/-- The deduplication key event_key = (start value, summary) of line 130. -/
abbrev EventKey := Option Int × String

def eventKey (e : RawEvent) : EventKey := (rawTimeValue e.start, e.summary)

def outKey (o : EventOut) : EventKey := (o.start, o.summary)

/-- The dict appended to unique_events for a kept raw event. -/
def projEvent (e : RawEvent) : EventOut :=
  ⟨rawTimeValue e.start, e.summary, rawTimeValue e.end_⟩

/-- The dedup loop of lines 127-140: walk the backend items in order, keep an
event iff its key has not been seen, remembering seen keys (the Python set is
modelled by a list with membership). -/
def dedupAux (seen : List EventKey) : List RawEvent → List EventOut
  | [] => []
  | e :: rest =>
    if eventKey e ∈ seen then dedupAux seen rest
    else projEvent e :: dedupAux (eventKey e :: seen) rest

def dedupEvents (evs : List RawEvent) : List EventOut := dedupAux [] evs

/-- Model of qs.split(sep) over the character list of a string, with Python
str.split semantics: the empty string splits to one empty field. -/
def splitOnChar (c : Char) : List Char → List (List Char)
  | [] => [[]]
  | a :: rest =>
    let r := splitOnChar c rest
    if a = c then [] :: r
    else
      match r with
      | [] => [[a]]
      | h :: t => (a :: h) :: t

/-- Model of name_value.split(eq, 1): split a field at its first equals sign;
none when the field contains no equals sign. -/
def splitFirstEq : List Char → Option (List Char × List Char)
  | [] => none
  | a :: rest =>
    if a = '=' then some ([], rest)
    else (splitFirstEq rest).map (fun p => (a :: p.1, p.2))

/-- The plus-to-space replacement performed by unquote_plus.  Percent-escape
decoding is not modelled: the inputs of interest contain no percent sign. -/
def plusToSpace (l : List Char) : List Char :=
  l.map (fun c => if c = '+' then ' ' else c)

/-- One field of a query string, following urllib.parse.parse_qsl with its
defaults (keep_blank_values False, strict_parsing False): fields without an
equals sign and fields with a blank value are silently dropped. -/
def parseField (f : List Char) : Option (String × String) :=
  match splitFirstEq f with
  | none => none
  | some (n, v) =>
    if v = [] then none
    else some (String.mk (plusToSpace n), String.mk (plusToSpace v))

/-- Model of urllib.parse.parse_qs, value lists flattened in order.  On a str
argument this function never raises in Python (blank values are dropped, so
the v[0] subscripts of line 107 are safe), which is why the
except-return-message branch of lines 110-111 is unreachable and absent from
the model. -/
def parse_qs (s : String) : List (String × String) :=
  (splitOnChar '&' s.data).filterMap parseField

/-- Model of params.get(key, dflt) where params maps each key to its first
value in parse_qs order: the first value bound to key, else dflt. -/
def qsGet (s : String) (key dflt : String) : String :=
  match (parse_qs s).find? (fun p => decide (p.1 = key)) with
  | some p => p.2
  | none => dflt

/-- The membership test for an equals sign in the query (line 105). -/
def containsEq (q : String) : Bool := q.data.contains '='

/-- The request issued by list_events_tool to the backend list call
(lines 115-122).  Time bounds are the raw ISO strings: the Python code never
parses them, it forwards them verbatim. -/
structure ListEventsRequest where
  timeMin : String
  timeMax : String
  maxResults : Nat
  singleEvents : Bool
  orderBy : String
deriving DecidableEq

/-- Lines 99-111: default bounds are now and now plus 7 days (passed in as
the ISO strings nowIso and nowPlus7Iso, since the code only ever handles the
strings); when a query is given and contains an equals sign, each bound is
overridden by the corresponding parameter when present.  Field order:
timeMin, timeMax, maxResults, singleEvents, orderBy. -/
def listEventsRequest (nowIso nowPlus7Iso : String) (query : Option String) :
    ListEventsRequest :=
  match query with
  | some q =>
    if containsEq q then
      ⟨qsGet q "start_time" nowIso, qsGet q "end_time" nowPlus7Iso, 20, true, "startTime"⟩
    else ⟨nowIso, nowPlus7Iso, 20, true, "startTime"⟩
  | none => ⟨nowIso, nowPlus7Iso, 20, true, "startTime"⟩

/-- Result of list_events_tool: either the list of unique events or a plain
message string (the code returns a str, not a list, when nothing is
found). -/
inductive ListResult where
  | events : List EventOut → ListResult
  | msg : String → ListResult
deriving DecidableEq

/-- Model of list_events_tool (lines 92-148), paired with the request it
issues: the fetch happens unconditionally, there is no validation between
parsing the query and calling the backend. -/
def list_events_tool (nowIso nowPlus7Iso : String) (query : Option String)
    (items : List RawEvent) : ListEventsRequest × ListResult :=
  let req := listEventsRequest nowIso nowPlus7Iso query
  let unique_events := dedupEvents items
  if unique_events.isEmpty then
    (req, .msg ("No events found between " ++ req.timeMin ++ " and " ++ req.timeMax))
  else (req, .events unique_events)

/-! ## find_available_slots_tool (src/app.py lines 150-189) -/

/-- A slot dict appended to available_slots.  Field order: start, end_,
duration_minutes. -/
structure Slot where
  start : Int
  end_ : Int
  duration_minutes : Int
deriving DecidableEq

/-- Model of now.replace(hour=23, minute=59, second=59) for a UTC instant:
23:59:59 of the same UTC day (Int.fdiv is the floor division that computes
the day, matching datetime for dates before the epoch as well). -/
def endOfDay (now : Int) : Int :=
  86400 * Int.fdiv now 86400 + 86399

/-- The request issued by find_available_slots_tool to the backend
(lines 157-163); note there is no timeMax.  Field order: timeMin,
maxResults, singleEvents, orderBy. -/
structure FindSlotsRequest where
  timeMin : Int
  maxResults : Nat
  singleEvents : Bool
  orderBy : String
deriving DecidableEq

def findSlotsRequest (now : Int) : FindSlotsRequest :=
  ⟨now, 20, true, "startTime"⟩

/-- The sweep of lines 165-178.  The lookups on lines 169-170 are plain
subscripts of the dateTime key: a missing dateTime raises a KeyError that
nothing in the tool catches, modelled by Except.error.  For each event with
both instants present: emit the slot from last_end to the event start iff
start is strictly greater than last_end plus 60 * min_duration, then advance
last_end to max last_end end.  Returns the emitted slots together with the
final last_end.  Int.tdiv is truncation towards zero, matching the Python
int(...) conversion on the values arising here. -/
def sweep (min_duration : Int) : Int → List RawEvent → Except String (List Slot × Int)
  | last_end, [] => .ok ([], last_end)
  | last_end, e :: rest =>
    match e.start.dateTime, e.end_.dateTime with
    | some s, some en =>
      match sweep min_duration (max last_end en) rest with
      | .error m => .error m
      | .ok (slots, fin) =>
        if last_end + 60 * min_duration < s then
          .ok (⟨last_end, s, Int.tdiv (s - last_end) 60⟩ :: slots, fin)
        else .ok (slots, fin)
    | none, _ => .error "KeyError: dateTime"
    | some _, none => .error "KeyError: dateTime"

/-- Model of find_available_slots_tool (lines 150-189): run the sweep from
now, then append the trailing slot up to end_of_day iff end_of_day is
strictly greater than last_end plus 60 * min_duration.  There is no check of
min_duration anywhere. -/
def find_available_slots_tool (now : Int) (min_duration : Int)
    (items : List RawEvent) : Except String (List Slot) :=
  match sweep min_duration now items with
  | .error m => .error m
  | .ok (slots, last_end) =>
    let eod := endOfDay now
    if last_end + 60 * min_duration < eod then
      .ok (slots ++ [⟨last_end, eod, Int.tdiv (eod - last_end) 60⟩])
    else .ok slots

/-! ## create_event_tool (src/app.py lines 191-228) -/

inductive CreateResult where
  | error : String → CreateResult
  | success : String → String → CreateResult
deriving DecidableEq

/-- The body passed to the backend insert call.  Field order: summary,
start, end_. -/
structure InsertRequest where
  summary : String
  start : Int
  end_ : Int
deriving DecidableEq

/-- Model of create_event_tool (lines 191-228): validation happens before
the insert; the second component records the insert request actually issued
(none when validation fails, so the calendar is untouched).  The link and
event_id arguments model the backend response to a successful insert. -/
def create_event_tool (now : Int) (summary : String)
    (start end_ : Int) (link event_id : String) :
    CreateResult × Option InsertRequest :=
  if end_ ≤ start then (.error "End time must be after start time", none)
  else if start < now then (.error "Cannot create events in the past", none)
  else (.success link event_id, some ⟨summary, start, end_⟩)

/-! ## Spec-side sweep for the refinement claim C1

Modelled from the spec (section 4.2), with the emission threshold corrected
to the strict comparison the code uses: emit the slot from cursor to the
event start when the gap exceeds minDuration strictly, advance cursor to
max cursor event-end, and after the sweep emit the trailing slot when the
remaining window exceeds minDuration strictly. -/

def specSweep (d : Int) : Int → List (Int × Int) → List (Int × Int) × Int
  | cursor, [] => ([], cursor)
  | cursor, p :: rest =>
    let r := specSweep d (max cursor p.2) rest
    (if 60 * d < p.1 - cursor then (cursor, p.1) :: r.1 else r.1, r.2)

def specAvailableSlots (d : Int) (windowStart windowEnd : Int)
    (events : List (Int × Int)) : List (Int × Int) :=
  let r := specSweep d windowStart events
  r.1 ++ (if 60 * d < windowEnd - r.2 then [(r.2, windowEnd)] else [])

/-- View of a spec-level slot pair as the slot dict the code builds. -/
def slotOfPair (p : Int × Int) : Slot :=
  ⟨p.1, p.2, Int.tdiv (p.2 - p.1) 60⟩

/-! ## Helper lemmas -/

/-- Every slot emitted by the sweep proper is strictly longer than
60 * min_duration seconds, because the emission condition is strict. -/
lemma sweep_duration (d : Int) : ∀ (evs : List RawEvent) (c : Int)
    (slots : List Slot) (fin : Int),
    sweep d c evs = .ok (slots, fin) → ∀ s ∈ slots, 60 * d < s.end_ - s.start := by
  intro evs
  induction evs with
  | nil =>
    intro c slots fin h s hs
    simp only [sweep, Except.ok.injEq, Prod.mk.injEq] at h
    rcases h with ⟨h1, _⟩
    subst h1
    simp at hs
  | cons e rest ih =>
    intro c slots fin h s hs
    simp only [sweep] at h
    split at h
    · split at h
      · exact absurd h (by simp)
      · next slots' fin' heq =>
        split at h
        · next hcond =>
          simp only [Except.ok.injEq, Prod.mk.injEq] at h
          rcases h with ⟨h1, _⟩
          subst h1
          rcases List.mem_cons.mp hs with h2 | h2
          · subst h2
            dsimp only
            omega
          · exact ih _ _ _ heq s h2
        · simp only [Except.ok.injEq, Prod.mk.injEq] at h
          rcases h with ⟨h1, _⟩
          subst h1
          exact ih _ _ _ heq s hs
    · exact absurd h (by simp)
    · exact absurd h (by simp)

/-- The code sweep agrees with the spec-side sweep on every event list whose
entries all carry dateTime instants: same emitted slots (as start/end pairs)
and same final cursor. -/
lemma sweep_spec (d : Int) : ∀ (evs : List RawEvent) (ps : List (Int × Int))
    (c : Int),
    evs.map (fun e => (e.start.dateTime, e.end_.dateTime)) =
      ps.map (fun p => (some p.1, some p.2)) →
    sweep d c evs = .ok (((specSweep d c ps).1).map slotOfPair, (specSweep d c ps).2) := by
  intro evs
  induction evs with
  | nil =>
    intro ps c h
    have hps : ps = [] := by
      cases ps with
      | nil => rfl
      | cons p ps' => simp at h
    subst hps
    simp [sweep, specSweep]
  | cons e rest ih =>
    intro ps c h
    cases ps with
    | nil => simp at h
    | cons p ps' =>
      simp only [List.map_cons, List.cons.injEq, Prod.mk.injEq] at h
      rcases h with ⟨⟨hs, he⟩, hrest⟩
      simp only [sweep, hs, he, ih ps' (max c p.2) hrest, specSweep]
      by_cases hc : c + 60 * d < p.1
      · have hc2 : 60 * d < p.1 - c := by omega
        rw [if_pos hc, if_pos hc2]
        simp [slotOfPair]
      · have hc2 : ¬ (60 * d < p.1 - c) := by omega
        rw [if_neg hc, if_neg hc2]

/-- A key already seen never reappears in the dedup output. -/
lemma dedupAux_filter_of_mem (k : EventKey) : ∀ (evs : List RawEvent) (seen : List EventKey),
    k ∈ seen →
    (dedupAux seen evs).filter (fun o => decide (outKey o = k)) = [] := by
  intro evs
  induction evs with
  | nil => intro seen _; simp [dedupAux]
  | cons e rest ih =>
    intro seen hk
    simp only [dedupAux]
    by_cases hm : eventKey e ∈ seen
    · rw [if_pos hm]
      exact ih seen hk
    · rw [if_neg hm]
      have hne : outKey (projEvent e) ≠ k := by
        have hpk : outKey (projEvent e) = eventKey e := rfl
        rw [hpk]
        intro hh
        exact hm (by rw [hh]; exact hk)
      simp only [List.filter_cons]
      rw [if_neg (by simpa using hne)]
      exact ih (eventKey e :: seen) (List.mem_cons_of_mem _ hk)

/-- For an unseen key, the dedup output filtered to that key is exactly the
projection of the first raw event carrying it. -/
lemma dedupAux_filter_of_find (k : EventKey) : ∀ (evs : List RawEvent) (seen : List EventKey)
    (e : RawEvent), k ∉ seen →
    evs.find? (fun x => decide (eventKey x = k)) = some e →
    (dedupAux seen evs).filter (fun o => decide (outKey o = k)) = [projEvent e] := by
  intro evs
  induction evs with
  | nil => intro seen e _ h; simp at h
  | cons a rest ih =>
    intro seen e hk h
    by_cases ha : eventKey a = k
    · rw [List.find?_cons_of_pos _ (by simpa using ha)] at h
      injection h with h
      subst h
      have hm : eventKey a ∉ seen := fun hmem => hk (ha ▸ hmem)
      simp only [dedupAux, if_neg hm]
      have ha2 : decide (outKey (projEvent a) = k) = true := by
        have hpk : outKey (projEvent a) = eventKey a := rfl
        rw [hpk, ha]
        simp
      simp only [List.filter_cons]
      rw [if_pos ha2, dedupAux_filter_of_mem k rest (eventKey a :: seen) (by simp [ha])]
    · rw [List.find?_cons_of_neg _ (by simpa using ha)] at h
      simp only [dedupAux]
      by_cases hm : eventKey a ∈ seen
      · rw [if_pos hm]
        exact ih seen e hk h
      · rw [if_neg hm]
        have hne : outKey (projEvent a) ≠ k := by
          have hpk : outKey (projEvent a) = eventKey a := rfl
          rw [hpk]
          intro hh
          exact ha hh
        simp only [List.filter_cons]
        rw [if_neg (by simpa using hne)]
        have hk2 : k ∉ eventKey a :: seen := by
          intro hmem
          rcases List.mem_cons.mp hmem with hh | hh
          · exact ha hh.symm
          · exact hk hh
        exact ih (eventKey a :: seen) e hk2 h

/-- Deduplication never lengthens the list. -/
lemma dedupAux_length_le : ∀ (evs : List RawEvent) (seen : List EventKey),
    (dedupAux seen evs).length ≤ evs.length := by
  intro evs
  induction evs with
  | nil => intro seen; simp [dedupAux]
  | cons e rest ih =>
    intro seen
    simp only [dedupAux]
    by_cases hm : eventKey e ∈ seen
    · rw [if_pos hm]
      exact Nat.le_succ_of_le (ih seen)
    · rw [if_neg hm]
      simpa using Nat.succ_le_succ (ih (eventKey e :: seen))

/-! ## Claim theorems -/

/-- C1 (corrected): on every event list whose entries all carry dateTime
instants, find_available_slots_tool returns exactly the slots of the spec
sweep with the emission threshold corrected to a strict comparison: the slot
from cursor to an event start is emitted exactly when the gap is strictly
greater than 60 * min_duration seconds, and the trailing slot up to
end-of-day exactly when the remaining window is strictly greater than
60 * min_duration seconds. -/
theorem C1_spec_sweep_refinement (now d : Int) (evs : List RawEvent)
    (ps : List (Int × Int))
    (h : evs.map (fun e => (e.start.dateTime, e.end_.dateTime)) =
      ps.map (fun p => (some p.1, some p.2))) :
    find_available_slots_tool now d evs =
      .ok ((specAvailableSlots d now (endOfDay now) ps).map slotOfPair) := by
  have hs := sweep_spec d evs ps now h
  simp only [find_available_slots_tool, hs, specAvailableSlots]
  by_cases hc : (specSweep d now ps).2 + 60 * d < endOfDay now
  · have hc2 : 60 * d < endOfDay now - (specSweep d now ps).2 := by omega
    rw [if_pos hc, if_pos hc2]
    simp [slotOfPair]
  · have hc2 : ¬ (60 * d < endOfDay now - (specSweep d now ps).2) := by omega
    rw [if_neg hc, if_neg hc2]
    simp

/-- C1 witness: one event from 7200 to 10800 with now 0 and a 30-minute
minimum yields the slot before the event and the trailing slot, matching the
spec-side sweep. -/
theorem C1_spec_sweep_refinement_witness :
    find_available_slots_tool 0 30 [⟨⟨some 7200, none⟩, ⟨some 10800, none⟩, "m"⟩] =
      .ok ((specAvailableSlots 30 0 (endOfDay 0) [(7200, 10800)]).map slotOfPair) ∧
    (specAvailableSlots 30 0 (endOfDay 0) [(7200, 10800)]).map slotOfPair =
      [⟨0, 7200, 120⟩, ⟨10800, 86399, 1259⟩] :=
  ⟨C1_spec_sweep_refinement 0 30 _ [(7200, 10800)] (by decide), by decide⟩

/-- C1 counterexample: with now 0, min_duration 30 and one event from 1800
to 3600, the gap before the event is exactly 30 minutes (1800 seconds), yet
no slot from 0 to 1800 is emitted, refuting the claimed non-strict
threshold; only the trailing slot appears. -/
theorem C1_exact_gap_counterexample :
    find_available_slots_tool 0 30 [⟨⟨some 1800, none⟩, ⟨some 3600, none⟩, "m"⟩] =
      .ok [⟨3600, 86399, 1379⟩] ∧
    (Slot.mk 0 1800 30) ∉ [Slot.mk 3600 86399 1379] := by decide

/-- C2 (corrected): create_event_tool validates before issuing any insert.
When end is at most start it fails with the InvalidInterval message, and
when start is before end but in the past it fails with the PastEvent
message; in both failure cases the issued insert request is none, so the
calendar state is unchanged. -/
theorem C2_validation_before_insert (now st en : Int) (s L I : String) :
    (en ≤ st →
      create_event_tool now s st en L I = (.error "End time must be after start time", none)) ∧
    (st < en → st < now →
      create_event_tool now s st en L I = (.error "Cannot create events in the past", none)) := by
  constructor
  · intro h
    unfold create_event_tool
    rw [if_pos h]
  · intro h1 h2
    unfold create_event_tool
    rw [if_neg (by omega), if_pos h2]

/-- C2 witness: both validation failures at concrete inputs, with no insert
request issued. -/
theorem C2_validation_before_insert_witness :
    create_event_tool 5 "a" 3 3 "L" "I" = (.error "End time must be after start time", none) ∧
    create_event_tool 5 "a" 3 4 "L" "I" = (.error "Cannot create events in the past", none) :=
  ⟨(C2_validation_before_insert 5 3 3 "a" "L" "I").1 (by decide),
   (C2_validation_before_insert 5 3 4 "a" "L" "I").2 (by decide) (by decide)⟩

/-- C2 counterexample: an input with both end at most start and start in the
past fails with the InvalidInterval message, not the PastEvent message the
claim requires for every input with start before now. -/
theorem C2_overlap_counterexample :
    ((0 : Int) < 1) ∧
    create_event_tool 1 "m" 0 0 "L" "I" = (.error "End time must be after start time", none) ∧
    (CreateResult.error "End time must be after start time" ≠
      CreateResult.error "Cannot create events in the past") := by decide

/-- C3 (confirmed): the list_events_tool output is deduplicated by the
(start, summary) key, keeping the first backend entry: whenever the first
entry with key k in backend order is e, the output restricted to key k is
exactly the formatted projection of e (so two or more raw entries with the
same key produce exactly one output entry, the first one). -/
theorem C3_dedup_first_kept (evs : List RawEvent) (k : EventKey) (e : RawEvent)
    (h : evs.find? (fun x => decide (eventKey x = k)) = some e) :
    (dedupEvents evs).filter (fun o => decide (outKey o = k)) = [projEvent e] :=
  dedupAux_filter_of_find k evs [] e (by simp) h

/-- C3 witness: two raw events sharing start 10 and summary a (with
different ends) plus a distinct event; the output keeps exactly the first. -/
theorem C3_dedup_first_kept_witness :
    ([⟨⟨some 10, none⟩, ⟨some 20, none⟩, "a"⟩, ⟨⟨some 10, none⟩, ⟨some 99, none⟩, "a"⟩,
      ⟨⟨some 50, none⟩, ⟨some 60, none⟩, "b"⟩] : List RawEvent).find?
        (fun x => decide (eventKey x = ((some 10, "a") : EventKey))) =
      some ⟨⟨some 10, none⟩, ⟨some 20, none⟩, "a"⟩ ∧
    (dedupEvents [⟨⟨some 10, none⟩, ⟨some 20, none⟩, "a"⟩, ⟨⟨some 10, none⟩, ⟨some 99, none⟩, "a"⟩,
      ⟨⟨some 50, none⟩, ⟨some 60, none⟩, "b"⟩]).filter
        (fun o => decide (outKey o = ((some 10, "a") : EventKey))) =
      [projEvent ⟨⟨some 10, none⟩, ⟨some 20, none⟩, "a"⟩] :=
  ⟨by decide, C3_dedup_first_kept _ _ _ (by decide)⟩

/-- C4 (corrected): with an empty backend response, list_events_tool returns
the no-events message string built from the effective bounds, not an empty
event list. -/
theorem C4_no_events_message (nowIso nowPlus7Iso : String) (query : Option String) :
    (list_events_tool nowIso nowPlus7Iso query []).2 =
      .msg ("No events found between " ++ (listEventsRequest nowIso nowPlus7Iso query).timeMin
        ++ " and " ++ (listEventsRequest nowIso nowPlus7Iso query).timeMax) := rfl

/-- C4 counterexample: at concrete bounds the empty-range result is the
message string, and it differs from the empty event list the claim
requires. -/
theorem C4_empty_list_counterexample :
    (list_events_tool "A" "B" none []).2 = .msg "No events found between A and B" ∧
    (list_events_tool "A" "B" none []).2 ≠ .events [] := by decide

/-- C5 (corrected): list_events_tool performs no time-range validation at
all: for every query (including one whose start bound is not before its end
bound) the backend request is issued with the parsed bounds unchanged, and
the result is determined by the backend response alone: the deduplicated
event list, or the no-events message.  No range error exists. -/
theorem C5_no_range_validation (nowIso nowPlus7Iso : String) (query : Option String)
    (items : List RawEvent) :
    (list_events_tool nowIso nowPlus7Iso query items).1 = listEventsRequest nowIso nowPlus7Iso query ∧
    ((list_events_tool nowIso nowPlus7Iso query items).2 = .events (dedupEvents items) ∨
     (list_events_tool nowIso nowPlus7Iso query items).2 =
       .msg ("No events found between " ++ (listEventsRequest nowIso nowPlus7Iso query).timeMin
         ++ " and " ++ (listEventsRequest nowIso nowPlus7Iso query).timeMax)) := by
  constructor
  · simp only [list_events_tool]
    split <;> rfl
  · simp only [list_events_tool]
    split
    · right; rfl
    · left; rfl

/-- C5 counterexample: a query whose start_time denotes a later instant than
its end_time (the ISO strings compare accordingly) still produces a backend
request carrying exactly those bounds and a normal backend-derived result,
not an InvalidRange error detected before the call. -/
theorem C5_inverted_range_counterexample :
    listEventsRequest "N" "M" (some "start_time=2030-01-02T00:00:00Z&end_time=2030-01-01T00:00:00Z") =
      ⟨"2030-01-02T00:00:00Z", "2030-01-01T00:00:00Z", 20, true, "startTime"⟩ ∧
    "2030-01-01T00:00:00Z".data < "2030-01-02T00:00:00Z".data ∧
    (list_events_tool "N" "M"
      (some "start_time=2030-01-02T00:00:00Z&end_time=2030-01-01T00:00:00Z") []).2 =
      .msg "No events found between 2030-01-02T00:00:00Z and 2030-01-01T00:00:00Z" := by decide

/-- C6 (corrected): find_available_slots_tool performs no validation of
min_duration: for every min_duration at most 0 (and an empty calendar, with
now at the epoch) it runs the sweep and returns the whole remaining day as a
slot list, not an InvalidDuration error. -/
theorem C6_no_duration_validation (d : Int) (h : d ≤ 0) :
    find_available_slots_tool 0 d [] = .ok [⟨0, 86399, 1439⟩] := by
  have he : endOfDay 0 = 86399 := by decide
  simp only [find_available_slots_tool, sweep, he]
  rw [if_pos (by omega)]
  decide

/-- C6 witness: the theorem applied at min_duration minus five. -/
theorem C6_no_duration_validation_witness :
    ((-5 : Int) ≤ 0) ∧ find_available_slots_tool 0 (-5) [] = .ok [⟨0, 86399, 1439⟩] :=
  ⟨by decide, C6_no_duration_validation (-5) (by decide)⟩

/-- C6 counterexample: min_duration 0 satisfies the claim hypothesis, yet
the tool returns a slot list instead of failing with InvalidDuration. -/
theorem C6_nonpositive_duration_counterexample :
    ((0 : Int) ≤ 0) ∧ find_available_slots_tool 0 0 [] = .ok [⟨0, 86399, 1439⟩] := by decide

/-- C7 (corrected): a malformed query is silently ignored, not rejected:
when the query contains no equals sign the parsing branch is skipped
entirely and the default bounds are used unchanged; no InvalidQueryFormat
error is produced (the error branch in the code is unreachable, since
parse_qs does not raise on a str). -/
theorem C7_malformed_query_defaults (a b q : String) (h : q.data.contains '=' = false) :
    listEventsRequest a b (some q) = ⟨a, b, 20, true, "startTime"⟩ := by
  have h2 : containsEq q = false := h
  simp only [listEventsRequest, h2]
  simp

/-- C7 witness: the literal query garbage contains no equals sign and is
silently replaced by the defaults. -/
theorem C7_malformed_query_defaults_witness :
    ("garbage".data.contains '=' = false) ∧
    listEventsRequest "N" "M" (some "garbage") = ⟨"N", "M", 20, true, "startTime"⟩ :=
  ⟨by decide, C7_malformed_query_defaults "N" "M" "garbage" (by decide)⟩

/-- C7 counterexample: malformed queries (one with an equals sign but no
time keys, one with no equals sign at all) silently fall back to the default
bounds and the tool returns a normal event list, never an
InvalidQueryFormat error. -/
theorem C7_malformed_query_counterexample :
    listEventsRequest "N" "M" (some "foo=bar") = ⟨"N", "M", 20, true, "startTime"⟩ ∧
    (list_events_tool "N" "M" (some "garbage") [⟨⟨some 5, none⟩, ⟨some 6, none⟩, "x"⟩]).2 =
      .events [⟨some 5, "x", some 6⟩] := by decide

/-- C8 (confirmed): every slot in a successful result of
find_available_slots_tool has duration at least 60 * min_duration seconds,
that is, at least min_duration minutes (the emission conditions are strict,
so the bound holds a fortiori). -/
theorem C8_slot_duration_ge (now d : Int) (evs : List RawEvent) (slots : List Slot)
    (h : find_available_slots_tool now d evs = .ok slots) :
    ∀ s ∈ slots, 60 * d ≤ s.end_ - s.start := by
  unfold find_available_slots_tool at h
  cases hsw : sweep d now evs with
  | error m =>
    rw [hsw] at h
    exact absurd h (by simp)
  | ok pr =>
    obtain ⟨slots', fin⟩ := pr
    rw [hsw] at h
    dsimp only at h
    split at h
    · next hcond =>
      simp only [Except.ok.injEq] at h
      subst h
      intro s hs
      rcases List.mem_append.mp hs with h2 | h2
      · have := sweep_duration d evs now slots' fin hsw s h2
        omega
      · have h3 := List.mem_singleton.mp h2
        subst h3
        dsimp only
        omega
    · simp only [Except.ok.injEq] at h
      subst h
      intro s hs
      have := sweep_duration d evs now slots' fin hsw s hs
      omega

/-- C8 witness: the empty calendar at now 0 with a 30-minute minimum yields
one slot, whose duration meets the bound. -/
theorem C8_slot_duration_ge_witness :
    (find_available_slots_tool 0 30 [] = .ok [⟨0, 86399, 1439⟩]) ∧
    (60 * 30 ≤ (86399 : Int) - 0) :=
  ⟨by decide,
   C8_slot_duration_ge 0 30 [] [⟨0, 86399, 1439⟩] (by decide) ⟨0, 86399, 1439⟩ (by decide)⟩

/-- C9 (confirmed): on a backend response containing an all-day event (only
a date field, no dateTime), find_available_slots_tool hits an uncaught
KeyError (modelled as Except.error) instead of returning a slot list, while
list_events_tool handles the very same response by falling back to the date
field. -/
theorem C9_allday_event_crash :
    find_available_slots_tool 0 30 [⟨⟨none, some 0⟩, ⟨none, some 86400⟩, "holiday"⟩] =
      .error "KeyError: dateTime" ∧
    (list_events_tool "N" "M" none [⟨⟨none, some 0⟩, ⟨none, some 86400⟩, "holiday"⟩]).2 =
      .events [⟨some 0, "holiday", some 86400⟩] := by decide

/-- C10 (confirmed): both tools request maxResults 20 from the backend, and
the list_events_tool output is never longer than the backend response, hence
has length at most 20 whenever the backend honours maxResults. -/
theorem C10_maxResults_twenty (nowIso nowPlus7Iso : String) (query : Option String)
    (items : List RawEvent) (now : Int) (h : items.length ≤ 20) :
    (listEventsRequest nowIso nowPlus7Iso query).maxResults = 20 ∧
    (findSlotsRequest now).maxResults = 20 ∧
    (dedupEvents items).length ≤ 20 := by
  refine ⟨?_, rfl, le_trans (dedupAux_length_le items []) h⟩
  unfold listEventsRequest
  cases query with
  | none => rfl
  | some q =>
    dsimp only
    split <;> rfl

/-- C10 witness: the theorem applied to the empty backend response. -/
theorem C10_maxResults_twenty_witness :
    (([] : List RawEvent).length ≤ 20) ∧
    ((listEventsRequest "A" "B" none).maxResults = 20 ∧
     (findSlotsRequest 0).maxResults = 20 ∧
     (dedupEvents ([] : List RawEvent)).length ≤ 20) :=
  ⟨by decide, C10_maxResults_twenty "A" "B" none [] 0 (by decide)⟩

end Calendar
